import Mathlib

/-!
Verification of the chunking / metadata-propagation engine of
src/scripts/pdf_processor.py: the JSON flattener (flatten_json), the three
extractors, the re-chunker (split_into_chunks) and the orchestrator
(process_document).  Python dicts are modelled as insertion-ordered
association lists with Python's update-in-place semantics; Python strings
that get sliced are modelled as List Char so that lengths and slices are
counted per character.
-/

set_option maxHeartbeats 1000000

/-- A parsed JSON value (the input of flatten_json) and also the type of
metadata values: Python scalars (None, bool, int, str) plus containers. -/
inductive JValue where
  | null : JValue
  | bool : Bool → JValue
  | num : Int → JValue
  | str : String → JValue
  | arr : List JValue → JValue
  | obj : List (String × JValue) → JValue

/-- isinstance(value, (dict, list)) from flatten_json. -/
def isContainer : JValue → Bool
  | JValue.obj _ => true
  | JValue.arr _ => true
  | _ => false

/-- Python dict assignment d[k] = v on an insertion-ordered association list:
an existing key keeps its position and gets the new value, a new key is
appended at the end. -/
def updateAssoc (m : List (String × JValue)) (k : String) (v : JValue) :
    List (String × JValue) :=
  if m.any (fun p => p.1 == k) then
    m.map (fun p => if p.1 == k then (k, v) else p)
  else
    m ++ [(k, v)]

/-- Python dict.update(entries): assign every entry of entries in order. -/
def updateAll (m entries : List (String × JValue)) : List (String × JValue) :=
  entries.foldl (fun acc p => updateAssoc acc p.1 p.2) m

/-- Python d.get(k) as an Option (first — and only — binding of k). -/
def getMeta (m : List (String × JValue)) (k : String) : Option JValue :=
  (m.find? (fun p => p.1 == k)).map Prod.snd

/-- Python d.get(k, default). -/
def dictGet (m : List (String × JValue)) (k : String) (d : JValue) : JValue :=
  match m.find? (fun p => p.1 == k) with
  | some p => p.2
  | none => d

mutual

/-- Embeds flatten_json from src/scripts/pdf_processor.py.  The dict and list
loops (which fold dict assignments / dict.update over the members) are the
mutual helpers flattenObjFields and flattenArrItems. -/
def flatten_json : JValue → String → List (String × JValue)
  | JValue.obj fields, pfx => flattenObjFields [] fields pfx
  | JValue.arr items, pfx => flattenArrItems [] items pfx 0
  | v, pfx => [(pfx, v)]
termination_by v _ => sizeOf v

/-- The for key, value in obj.items() loop of flatten_json, with the Python
result dict threaded through as the first argument. -/
def flattenObjFields :
    List (String × JValue) → List (String × JValue) → String →
    List (String × JValue)
  | result, [], _ => result
  | result, (key, value) :: rest, pfx =>
    let new_key := if pfx = "" then key else pfx ++ "." ++ key
    if isContainer value then
      flattenObjFields (updateAll result (flatten_json value new_key)) rest pfx
    else
      flattenObjFields (updateAssoc result new_key value) rest pfx
termination_by _ fields _ => sizeOf fields

/-- The for i, item in enumerate(obj) loop of flatten_json. -/
def flattenArrItems :
    List (String × JValue) → List JValue → String → Nat →
    List (String × JValue)
  | result, [], _, _ => result
  | result, item :: rest, pfx, i =>
    let new_key := pfx ++ "[" ++ toString i ++ "]"
    if isContainer item then
      flattenArrItems (updateAll result (flatten_json item new_key)) rest pfx
        (i + 1)
    else
      flattenArrItems (updateAssoc result new_key item) rest pfx (i + 1)
termination_by _ items _ _ => sizeOf items

end

mutual

/-- Python repr of a JSON value (used by str() on containers). -/
def pyRepr : JValue → String
  | JValue.null => "None"
  | JValue.bool true => "True"
  | JValue.bool false => "False"
  | JValue.num n => toString n
  | JValue.str s => "\x27" ++ s ++ "\x27"
  | JValue.arr items => "[" ++ pyReprArr items ++ "]"
  | JValue.obj fields => "\x7b" ++ pyReprObj fields ++ "\x7d"
termination_by v => sizeOf v

def pyReprArr : List JValue → String
  | [] => ""
  | [v] => pyRepr v
  | v :: rest => pyRepr v ++ ", " ++ pyReprArr rest
termination_by items => sizeOf items

def pyReprObj : List (String × JValue) → String
  | [] => ""
  | [(k, v)] => "\x27" ++ k ++ "\x27: " ++ pyRepr v
  | (k, v) :: rest => "\x27" ++ k ++ "\x27: " ++ pyRepr v ++ ", " ++ pyReprObj rest
termination_by fields => sizeOf fields

end

/-- Python str(value) as used by the f-string rendering of flattened values
(scalars print bare; flatten only ever stores scalars, so the container
branch is unreachable from the pipeline but kept total). -/
def pyStr : JValue → String
  | JValue.str s => s
  | v => pyRepr v

/-- Python str.strip() (default whitespace stripping) on a character list. -/
def pyStrip (l : List Char) : List Char :=
  ((l.dropWhile Char.isWhitespace).reverse.dropWhile Char.isWhitespace).reverse

/-- Python slice l[a:b] (b already clamped or not: take clamps). -/
def pySlice (l : List Char) (a b : Nat) : List Char :=
  (l.drop a).take (b - a)

/-- One (text, metadata) record of the pipeline.  text is the character
sequence, metadata the insertion-ordered dict. -/
structure Record where
  text : List Char
  metadata : List (String × JValue)

/-- Python range(0, stop, step) for a positive step: starts 0, step, 2*step,
... below stop. -/
def rangeByPos (stop step : Nat) : List Nat :=
  (List.range ((stop + step - 1) / step)).map (fun j => j * step)

/-- Python range(0, stop, step) for an arbitrary integer step: step 0 raises
ValueError, a negative step (counting down from 0 with stop ≥ 0) is empty. -/
def pyRange3 (stop : Nat) (step : Int) : Except String (List Nat) :=
  if step = 0 then Except.error "range() arg 3 must not be zero"
  else if step < 0 then Except.ok []
  else Except.ok (rangeByPos stop step.toNat)

/-- Embeds extract_text_from_pdf: the extracted page texts stand in for the
external PdfReader collaborator; pages whose text is empty or
whitespace-only are skipped. -/
def extract_text_from_pdf (source : String) (pages : List (List Char)) :
    List Record :=
  pages.enum.filterMap (fun p =>
    if p.2.isEmpty || (pyStrip p.2).isEmpty then none
    else some
      { text := p.2
        metadata :=
          [("source", JValue.str source),
           ("page", JValue.num (p.1 + 1)),
           ("total_pages", JValue.num pages.length),
           ("format", JValue.str "pdf")] })

/-- Embeds extract_text_from_txt: the file's text content stands in for the
open/read collaborator; a file that is empty or whitespace-only yields [];
otherwise the text is cut into fixed slabs of 1000 characters. -/
def extract_text_from_txt (source : String) (text : List Char) : List Record :=
  if text.isEmpty || (pyStrip text).isEmpty then []
  else
    (rangeByPos text.length 1000).map (fun i =>
      { text := pySlice text i (i + 1000)
        metadata :=
          [("source", JValue.str source),
           ("chunk", JValue.num (i / 1000 + 1)),
           ("total_chunks", JValue.num ((text.length + 1000 - 1) / 1000)),
           ("format", JValue.str "txt")] })

/-- Embeds extract_text_from_json: the parsed JSON value stands in for the
json.load collaborator; an array is a list of items, anything else a single
item; each item is flattened and rendered as newline-joined key: value
lines. -/
def extract_text_from_json (source : String) (jsonContent : JValue) :
    List Record :=
  let json_items := match jsonContent with
    | JValue.arr xs => xs
    | v => [v]
  json_items.enum.map (fun p =>
    let flattened := flatten_json p.2 ""
    let item_text :=
      String.intercalate "\n"
        (flattened.map (fun kv => kv.1 ++ ": " ++ pyStr kv.2))
    { text := item_text.toList
      metadata :=
        [("source", JValue.str source),
         ("item_index", JValue.num p.1),
         ("total_items", JValue.num json_items.length),
         ("format", JValue.str "json"),
         ("original_item", p.2)] })

/-- One emitted sub-chunk of split_into_chunks: text[i:min(i+chunk_size,
len(text))] with the merged metadata dict literal
star-star-item-metadata, chunk, total_chunks_from_original, original_page
(sequential dict assignments reproduce the literal's merge order). -/
def mkSubChunk (item : Record) (chunk_size overlap chunk_num i : Nat) :
    Record :=
  { text := pySlice item.text i (min (i + chunk_size) item.text.length)
    metadata :=
      updateAssoc
        (updateAssoc
          (updateAssoc item.metadata "chunk" (JValue.num chunk_num))
          "total_chunks_from_original"
          (JValue.num
            ((item.text.length + chunk_size - 1) / (chunk_size - overlap))))
        "original_page" (dictGet item.metadata "page" (JValue.num 1)) }

/-- The body of split_into_chunks for one input record: pass through when the
text fits, otherwise walk range(0, len(text), chunk_size - overlap),
breaking at the first start i with i > 0 and i + chunk_size > len(text)
(so the trailing partial window is dropped), and number the kept windows
1-based. -/
def splitOne (item : Record) (chunk_size overlap : Nat) :
    Except String (List Record) :=
  if item.text.length ≤ chunk_size then Except.ok [item]
  else
    match pyRange3 item.text.length
        ((chunk_size : Int) - (overlap : Int)) with
    | Except.error e => Except.error e
    | Except.ok starts =>
      let kept := starts.takeWhile (fun i =>
        decide (i = 0) || decide (i + chunk_size ≤ item.text.length))
      Except.ok (kept.enum.map (fun p =>
        mkSubChunk item chunk_size overlap (p.1 + 1) p.2))

/-- Embeds split_into_chunks: process every record in order, concatenating
the produced sub-chunk lists (a ValueError raised for one record aborts the
whole call, as the Python exception does). -/
def split_into_chunks (texts : List Record) (chunk_size overlap : Nat) :
    Except String (List Record) :=
  match texts with
  | [] => Except.ok []
  | item :: rest =>
    match splitOne item chunk_size overlap with
    | Except.error e => Except.error e
    | Except.ok c =>
      match split_into_chunks rest chunk_size overlap with
      | Except.error e => Except.error e
      | Except.ok r => Except.ok (c ++ r)

/-- The orchestrator's view of one input file: its basename, its extension
as os.path.splitext returns it, and what each external collaborator
(os.path.exists, PdfReader, open().read, json.load) would hand back for it.
parsedJson = none models a json.load parse failure. -/
structure FileModel where
  name : String
  ext : String
  present : Bool
  pdfPages : List (List Char)
  rawText : List Char
  parsedJson : Option JValue

/-- Python str.lower(), modelled character-wise so that it is executable
(the extensions it is compared against are ASCII). -/
def pyLower (s : String) : String := String.mk (s.data.map Char.toLower)

/-- Embeds process_document: existence check, case-insensitive extension
dispatch (unknown extensions fall back to the text extractor with a logged
warning, surfaced here as the Bool), then the uniform re-chunking pass with
the default chunk_size 1000 and overlap 200. -/
def process_document (f : FileModel) : Except String (List Record × Bool) :=
  if f.present = false then
    Except.error ("File does not exist: " ++ f.name)
  else
    let file_ext := pyLower f.ext
    let extracted : Except String (List Record × Bool) :=
      if file_ext = ".pdf" then
        Except.ok (extract_text_from_pdf f.name f.pdfPages, false)
      else if file_ext = ".txt" then
        Except.ok (extract_text_from_txt f.name f.rawText, false)
      else if file_ext = ".json" then
        match f.parsedJson with
        | some j => Except.ok (extract_text_from_json f.name j, false)
        | none => Except.error "Malformed JSON input"
      else
        Except.ok (extract_text_from_txt f.name f.rawText, true)
    match extracted with
    | Except.error e => Except.error e
    | Except.ok (chunks, warned) =>
      match split_into_chunks chunks 1000 200 with
      | Except.error e => Except.error e
      | Except.ok cks => Except.ok (cks, warned)

mutual

/-- The pre-order list of key-paths that flatten_json generates, one per
scalar leaf (specification-side companion of flatten_json used to state
leaf/key-path claims). -/
def leafPaths : JValue → String → List String
  | JValue.obj fields, pfx => leafPathsObj fields pfx
  | JValue.arr items, pfx => leafPathsArr items pfx 0
  | _, pfx => [pfx]
termination_by v _ => sizeOf v

def leafPathsObj : List (String × JValue) → String → List String
  | [], _ => []
  | (key, value) :: rest, pfx =>
    let new_key := if pfx = "" then key else pfx ++ "." ++ key
    (if isContainer value then leafPaths value new_key else [new_key]) ++
      leafPathsObj rest pfx
termination_by fields _ => sizeOf fields

def leafPathsArr : List JValue → String → Nat → List String
  | [], _, _ => []
  | item :: rest, pfx, i =>
    let new_key := pfx ++ "[" ++ toString i ++ "]"
    (if isContainer item then leafPaths item new_key else [new_key]) ++
      leafPathsArr rest pfx (i + 1)
termination_by items _ _ => sizeOf items

end

/-- A chain of singleton objects of the given nesting depth, ending in the
scalar 1: the pathological-depth input family for the flattener. -/
def nestObj : Nat → JValue
  | 0 => JValue.num 1
  | n + 1 => JValue.obj [("a", nestObj n)]

/-- Modelled from the spec: the spec's ceiling(a / b) (ceiling division),
stated only to compare the spec's total_chunks_from_original formula with
the code's. -/
def specCeilDiv (a b : Nat) : Nat := (a + b - 1) / b

/-! ## Association-list (Python dict) lemmas -/

theorem find?_append_expand {α : Type} (l1 l2 : List α) (p : α → Bool) :
    (l1 ++ l2).find? p =
      match l1.find? p with
      | some x => some x
      | none => l2.find? p := by
  induction l1 with
  | nil => simp
  | cons a t ih =>
    by_cases h : p a
    · simp [List.find?, h]
    · simp only [List.cons_append, List.find?]
      rw [Bool.not_eq_true] at h
      rw [h]
      exact ih

theorem find?_cons_true {α : Type} (p : α → Bool) (a : α) (l : List α)
    (h : p a = true) : (a :: l).find? p = some a := by
  simp [List.find?, h]

theorem find?_cons_false {α : Type} (p : α → Bool) (a : α) (l : List α)
    (h : p a = false) : (a :: l).find? p = l.find? p := by
  simp [List.find?, h]

theorem find?_map_subst_self (m : List (String × JValue)) (k : String)
    (v : JValue) (h : m.any (fun p => p.1 == k) = true) :
    (m.map (fun p => if p.1 == k then (k, v) else p)).find?
      (fun p => p.1 == k) = some (k, v) := by
  induction m with
  | nil => simp at h
  | cons a t ih =>
    by_cases hk : (a.1 == k) = true
    · rw [List.map_cons, if_pos hk,
        find?_cons_true (fun p => p.1 == k) (k, v) _ (by simp)]
    · have hk' : (a.1 == k) = false := by simpa using hk
      rw [List.map_cons, if_neg hk,
        find?_cons_false (fun p => p.1 == k) a _ hk']
      simp only [List.any_cons, Bool.or_eq_true] at h
      exact ih (h.resolve_left hk)

theorem find?_map_subst_ne (m : List (String × JValue)) (k k' : String)
    (v : JValue) (h : k ≠ k') :
    (m.map (fun p => if p.1 == k' then (k', v) else p)).find?
      (fun p => p.1 == k) = m.find? (fun p => p.1 == k) := by
  induction m with
  | nil => simp
  | cons a t ih =>
    by_cases hk : (a.1 == k') = true
    · have hak : (a.1 == k) = false := by
        simp only [beq_iff_eq] at hk
        simp only [beq_eq_false_iff_ne, ne_eq, hk]
        exact fun hh => h hh.symm
      have hne : (((k', v) : String × JValue).1 == k) = false := by
        simp only [beq_eq_false_iff_ne, ne_eq]
        exact fun hh => h hh.symm
      rw [List.map_cons, if_pos hk,
        find?_cons_false (fun p => p.1 == k) (k', v) _ hne,
        find?_cons_false (fun p => p.1 == k) a _ hak]
      exact ih
    · by_cases hak : (a.1 == k) = true
      · rw [List.map_cons, if_neg hk,
          find?_cons_true (fun p => p.1 == k) a _ hak,
          find?_cons_true (fun p => p.1 == k) a _ hak]
      · have hak' : (a.1 == k) = false := by simpa using hak
        rw [List.map_cons, if_neg hk,
          find?_cons_false (fun p => p.1 == k) a _ hak',
          find?_cons_false (fun p => p.1 == k) a _ hak']
        exact ih

theorem find?_none_of_not_any (m : List (String × JValue)) (k : String)
    (h : ¬(m.any (fun p => p.1 == k) = true)) :
    m.find? (fun p => p.1 == k) = none := by
  rw [List.find?_eq_none]
  intro x hx hxk
  exact h (List.any_eq_true.mpr ⟨x, hx, hxk⟩)

theorem find?_updateAssoc_self (m : List (String × JValue)) (k : String)
    (v : JValue) :
    (updateAssoc m k v).find? (fun p => p.1 == k) = some (k, v) := by
  unfold updateAssoc
  by_cases hany : m.any (fun p => p.1 == k) = true
  · rw [if_pos hany]
    exact find?_map_subst_self m k v hany
  · rw [if_neg hany]
    rw [find?_append_expand, find?_none_of_not_any m k hany]
    simp [List.find?]

theorem find?_updateAssoc_ne (m : List (String × JValue)) (k k' : String)
    (v : JValue) (h : k ≠ k') :
    (updateAssoc m k' v).find? (fun p => p.1 == k) =
      m.find? (fun p => p.1 == k) := by
  unfold updateAssoc
  by_cases hany : m.any (fun p => p.1 == k') = true
  · rw [if_pos hany]
    exact find?_map_subst_ne m k k' v h
  · rw [if_neg hany]
    rw [find?_append_expand]
    cases hm : m.find? (fun p => p.1 == k) with
    | some x => rfl
    | none =>
      have hne : ((k', v).1 == k) = false := by
        simp only [beq_eq_false_iff_ne, ne_eq]
        exact fun hh => h hh.symm
      simp [List.find?, hne]

theorem getMeta_updateAssoc_self (m : List (String × JValue)) (k : String)
    (v : JValue) : getMeta (updateAssoc m k v) k = some v := by
  unfold getMeta
  rw [find?_updateAssoc_self]
  rfl

theorem getMeta_updateAssoc_ne (m : List (String × JValue)) (k k' : String)
    (v : JValue) (h : k ≠ k') :
    getMeta (updateAssoc m k' v) k = getMeta m k := by
  unfold getMeta
  rw [find?_updateAssoc_ne _ _ _ _ h]

theorem updateAssoc_eq_append (m : List (String × JValue)) (k : String)
    (v : JValue) (h : k ∉ m.map Prod.fst) :
    updateAssoc m k v = m ++ [(k, v)] := by
  unfold updateAssoc
  rw [if_neg]
  simp only [List.any_eq_true, not_exists, not_and, Bool.not_eq_true]
  intro x hx
  simp only [beq_eq_false_iff_ne, ne_eq]
  intro hxk
  exact h (List.mem_map.mpr ⟨x, hx, hxk⟩)

theorem updateAll_eq_append (m entries : List (String × JValue))
    (h : (m.map Prod.fst ++ entries.map Prod.fst).Nodup) :
    updateAll m entries = m ++ entries := by
  induction entries generalizing m with
  | nil => simp [updateAll]
  | cons a t ih =>
    obtain ⟨k, v⟩ := a
    have hk : k ∉ m.map Prod.fst := by
      simp only [List.map_cons, List.nodup_append] at h
      intro hmem
      exact h.2.2 hmem (List.mem_cons_self _ _)
    have step : updateAssoc m k v = m ++ [(k, v)] := updateAssoc_eq_append m k v hk
    have h' : ((m ++ [(k, v)]).map Prod.fst ++ t.map Prod.fst).Nodup := by
      simp only [List.map_append, List.map_cons, List.map_nil] at *
      simpa [List.append_assoc] using h
    calc updateAll m ((k, v) :: t)
        = updateAll (updateAssoc m k v) t := rfl
      _ = updateAll (m ++ [(k, v)]) t := by rw [step]
      _ = (m ++ [(k, v)]) ++ t := ih _ h'
      _ = m ++ (k, v) :: t := by simp

/-! ## takeWhile / window arithmetic helpers -/

theorem takeWhile_eq_take_of_iff {α : Type} (l : List α) (p : α → Bool)
    (K : Nat) (h : ∀ j, (hj : j < l.length) → (p (l.get ⟨j, hj⟩) = true ↔ j < K)) :
    l.takeWhile p = l.take K := by
  induction l generalizing K with
  | nil => simp
  | cons a t ih =>
    have h0 := h 0 (by simp)
    simp only [List.get] at h0
    cases K with
    | zero =>
      have hpa : p a = false := by
        rw [← Bool.not_eq_true]
        intro hc
        exact Nat.lt_irrefl 0 (h0.mp hc)
      simp [List.takeWhile_cons, hpa]
    | succ K' =>
      have hpa : p a = true := h0.mpr (Nat.succ_pos K')
      rw [List.takeWhile_cons, hpa, if_pos rfl, List.take_succ_cons]
      congr 1
      apply ih
      intro j hj
      have := h (j + 1) (by simpa using Nat.succ_lt_succ hj)
      simp only [List.get] at this
      rw [this]
      omega

theorem enum_map_range {α : Type} (K : Nat) (f : Nat → α) :
    ((List.range K).map f).enum = (List.range K).map (fun j => (j, f j)) := by
  rw [List.enum_eq_zip_range, List.length_map, List.length_range]
  calc (List.range K).zip ((List.range K).map f)
      = ((List.range K).map id).zip ((List.range K).map f) := by rw [List.map_id]
    _ = (List.range K).map (fun j => (id j, f j)) := List.zip_map' id f _
    _ = (List.range K).map (fun j => (j, f j)) := rfl

/-- The window starts that split_into_chunks keeps for a record longer than
chunk_size (with a valid overlap): exactly the full windows
0, step, ..., ((len - chunk_size) / step) * step, where
step = chunk_size - overlap. -/
theorem splitOne_eq_windows (item : Record) (cs ov : Nat)
    (h1 : cs < item.text.length) (h2 : ov < cs) :
    splitOne item cs ov = Except.ok
      ((List.range ((item.text.length - cs) / (cs - ov) + 1)).map
        (fun j => mkSubChunk item cs ov (j + 1) (j * (cs - ov)))) := by
  have hn : ¬(item.text.length ≤ cs) := not_le.mpr h1
  have hstep_pos : 0 < cs - ov := by omega
  have hz : ¬((cs : Int) - (ov : Int) = 0) := by omega
  have hneg : ¬((cs : Int) - (ov : Int) < 0) := by omega
  have htoNat : ((cs : Int) - (ov : Int)).toNat = cs - ov := by omega
  unfold splitOne
  rw [if_neg hn]
  unfold pyRange3
  rw [if_neg hz, if_neg hneg, htoNat]
  have hKM : (item.text.length - cs) / (cs - ov) + 1 ≤
      (item.text.length + (cs - ov) - 1) / (cs - ov) := by
    rw [Nat.le_div_iff_mul_le hstep_pos, Nat.add_mul, Nat.one_mul]
    have hd : (item.text.length - cs) / (cs - ov) * (cs - ov) ≤
        item.text.length - cs := Nat.div_mul_le_self _ _
    omega
  have hiff : ∀ j, j < ((List.range ((item.text.length + (cs - ov) - 1) /
      (cs - ov))).map (fun j => j * (cs - ov))).length →
      ((decide (j * (cs - ov) = 0) ||
        decide (j * (cs - ov) + cs ≤ item.text.length)) = true ↔
        j < (item.text.length - cs) / (cs - ov) + 1) := by
    intro j hj
    have hfull : j * (cs - ov) + cs ≤ item.text.length ↔
        j ≤ (item.text.length - cs) / (cs - ov) := by
      rw [Nat.le_div_iff_mul_le hstep_pos]
      omega
    simp only [Bool.or_eq_true, decide_eq_true_eq]
    constructor
    · intro hc
      rcases hc with hc | hc
      · have : j = 0 := by
          rcases Nat.mul_eq_zero.mp hc with hj0 | hs0
          · exact hj0
          · omega
        omega
      · have := hfull.mp hc
        omega
    · intro hc
      right
      exact hfull.mpr (by omega)
  rw [rangeByPos]
  dsimp only
  rw [takeWhile_eq_take_of_iff _ _ ((item.text.length - cs) / (cs - ov) + 1)]
  · rw [← List.map_take, List.take_range,
      Nat.min_eq_left hKM, enum_map_range, List.map_map]
    rfl
  · intro j hj
    have hget : (((List.range ((item.text.length + (cs - ov) - 1) /
        (cs - ov))).map (fun j => j * (cs - ov))).get ⟨j, hj⟩) =
        j * (cs - ov) := by
      simp [List.get_eq_getElem]
    rw [hget]
    exact hiff j hj

theorem mkSubChunk_text (item : Record) (cs ov num i : Nat)
    (hi : i + cs ≤ item.text.length) :
    (mkSubChunk item cs ov num i).text = (item.text.drop i).take cs := by
  unfold mkSubChunk pySlice
  have harg : min (i + cs) item.text.length - i = cs := by omega
  rw [harg]

theorem mkSubChunk_text_length (item : Record) (cs ov num i : Nat)
    (hi : i + cs ≤ item.text.length) :
    (mkSubChunk item cs ov num i).text.length = cs := by
  rw [mkSubChunk_text item cs ov num i hi, List.length_take, List.length_drop]
  omega

theorem split_into_chunks_singleton (item : Record) (cs ov : Nat) :
    split_into_chunks [item] cs ov = splitOne item cs ov := by
  unfold split_into_chunks
  cases h : splitOne item cs ov with
  | error e => rfl
  | ok c => simp [split_into_chunks]

theorem full_window_le (n cs ov j : Nat) (h1 : cs < n) (h2 : ov < cs)
    (hj : j ≤ (n - cs) / (cs - ov)) : j * (cs - ov) + cs ≤ n := by
  have hstep_pos : 0 < cs - ov := by omega
  have := (Nat.le_div_iff_mul_le hstep_pos).mp hj
  omega

/-- C1: for a record with len(text) > chunk_size and 0 ≤ overlap <
chunk_size, split_into_chunks emits exactly the windows starting at
0, step, 2*step, ... (step = chunk_size - overlap) whose end fits inside
the text — a window with start > 0 and start + chunk_size > len(text) is
dropped entirely, never emitted shorter — every emitted sub-chunk has
length exactly chunk_size, and consecutive sub-chunks share exactly
overlap characters. -/
theorem split_emits_full_sliding_windows (item : Record) (cs ov : Nat)
    (hlen : cs < item.text.length) (hov : ov < cs) :
    split_into_chunks [item] cs ov = Except.ok
      ((List.range ((item.text.length - cs) / (cs - ov) + 1)).map
        (fun j => mkSubChunk item cs ov (j + 1) (j * (cs - ov)))) ∧
    (∀ j, j < (item.text.length - cs) / (cs - ov) + 1 →
      (mkSubChunk item cs ov (j + 1) (j * (cs - ov))).text.length = cs ∧
      j * (cs - ov) + cs ≤ item.text.length) ∧
    (∀ j, j + 1 < (item.text.length - cs) / (cs - ov) + 1 →
      (mkSubChunk item cs ov (j + 1) (j * (cs - ov))).text.drop (cs - ov) =
        (mkSubChunk item cs ov (j + 2) ((j + 1) * (cs - ov))).text.take ov) := by
  have hfull : ∀ j, j ≤ (item.text.length - cs) / (cs - ov) →
      j * (cs - ov) + cs ≤ item.text.length := fun j hj =>
    full_window_le item.text.length cs ov j hlen hov hj
  refine ⟨?_, ?_, ?_⟩
  · rw [split_into_chunks_singleton]
    exact splitOne_eq_windows item cs ov hlen hov
  · intro j hj
    have hj' : j * (cs - ov) + cs ≤ item.text.length := hfull j (by omega)
    exact ⟨mkSubChunk_text_length item cs ov (j + 1) (j * (cs - ov)) hj', hj'⟩
  · intro j hj
    have hj1 : (j + 1) * (cs - ov) + cs ≤ item.text.length :=
      hfull (j + 1) (by omega)
    have hj0 : j * (cs - ov) + cs ≤ item.text.length := by
      have : j * (cs - ov) ≤ (j + 1) * (cs - ov) :=
        Nat.mul_le_mul_right _ (by omega)
      omega
    rw [mkSubChunk_text item cs ov (j + 1) (j * (cs - ov)) hj0,
      mkSubChunk_text item cs ov (j + 2) ((j + 1) * (cs - ov)) hj1]
    rw [List.drop_take, List.drop_drop, List.take_take]
    have h1 : j * (cs - ov) + (cs - ov) = (j + 1) * (cs - ov) := by ring
    have h2 : cs - (cs - ov) = ov := by omega
    have h3 : min ov cs = ov := Nat.min_eq_left (by omega)
    rw [h1, h2, h3]

/-- Record used by the concrete C1 witness: the spec's 2500-character
example with a page number in its metadata. -/
def txt2500 : Record :=
  { text := List.replicate 2500 'a'
    metadata := [("source", JValue.str "d.pdf"), ("page", JValue.num 3)] }

/-- Witness for C1 at the spec's concrete example (2500 characters,
chunk_size 1000, overlap 200: exactly the 2 full windows are emitted). -/
theorem split_emits_full_sliding_windows_witness :
    (split_into_chunks [txt2500] 1000 200 = Except.ok
      ((List.range ((txt2500.text.length - 1000) / (1000 - 200) + 1)).map
        (fun j => mkSubChunk txt2500 1000 200 (j + 1) (j * (1000 - 200))))) ∧
    (mkSubChunk txt2500 1000 200 1 0).text.length = 1000 ∧
    (mkSubChunk txt2500 1000 200 1 0).text.drop 800 =
      (mkSubChunk txt2500 1000 200 2 800).text.take 200 := by
  have h2500 : txt2500.text.length = 2500 := by
    rw [show txt2500.text = List.replicate 2500 'a' from rfl,
      List.length_replicate]
  have hlen : 1000 < txt2500.text.length := by omega
  have hdiv : (txt2500.text.length - 1000) / 800 = 1 := by
    rw [h2500]
  have h := split_emits_full_sliding_windows txt2500 1000 200 hlen
    (by norm_num)
  refine ⟨h.1, (h.2.1 0 (by norm_num)).1, ?_⟩
  have h3 := h.2.2 0 (by
    rw [show (1000 - 200 : Nat) = 800 from rfl, hdiv]
    omega)
  norm_num at h3
  exact h3

theorem getMeta_mkSubChunk_tcfo (item : Record) (cs ov num i : Nat) :
    getMeta (mkSubChunk item cs ov num i).metadata
      "total_chunks_from_original" =
      some (JValue.num ((item.text.length + cs - 1) / (cs - ov))) := by
  unfold mkSubChunk
  rw [getMeta_updateAssoc_ne _ _ _ _ (by decide)]
  exact getMeta_updateAssoc_self _ _ _

/-- C2 (amended): each emitted sub-chunk's total_chunks_from_original is
(len(text) + chunk_size - 1) floor-div (chunk_size - overlap) — the code's
formula, which is NOT the ceiling of len(text) / (chunk_size - overlap) in
general — and the number of emitted sub-chunks is
(len(text) - chunk_size) / (chunk_size - overlap) + 1. -/
theorem total_chunks_metadata_formula (item : Record) (cs ov : Nat)
    (hlen : cs < item.text.length) (hov : ov < cs) :
    (split_into_chunks [item] cs ov).map
      (fun cks => cks.map
        (fun r => getMeta r.metadata "total_chunks_from_original")) =
    Except.ok (List.replicate ((item.text.length - cs) / (cs - ov) + 1)
      (some (JValue.num ((item.text.length + cs - 1) / (cs - ov))))) := by
  rw [split_into_chunks_singleton, splitOne_eq_windows item cs ov hlen hov]
  simp only [Except.map, List.map_map]
  congr 1
  rw [List.eq_replicate_iff]
  constructor
  · simp
  · intro b hb
    obtain ⟨j, hj, rfl⟩ := List.mem_map.mp hb
    exact getMeta_mkSubChunk_tcfo item cs ov (j + 1) (j * (cs - ov))

/-- Record used by the C2 counterexample: 24 characters, split with
chunk_size 10 and overlap 2. -/
def txt24 : Record := { text := List.replicate 24 'a', metadata := [] }

/-- Counterexample to C2 as stated: for len(text)=24, chunk_size=10,
overlap=2 the code stores total_chunks_from_original = (24 + 10 - 1) / 8 =
4 on both emitted sub-chunks, while the claimed ceiling(24 / 8) is 3. -/
theorem total_chunks_not_ceiling_cex :
    (split_into_chunks [txt24] 10 2).map
      (fun cks => cks.map
        (fun r => getMeta r.metadata "total_chunks_from_original")) =
      Except.ok [some (JValue.num 4), some (JValue.num 4)] ∧
    specCeilDiv txt24.text.length (10 - 2) = 3 ∧
    specCeilDiv txt24.text.length (10 - 2) ≠ 4 := by
  refine ⟨rfl, by decide, by decide⟩

/-- Witness for the amended C2 at the spec's 2500/1000/200 example: both
emitted sub-chunks carry total_chunks_from_original = 4 even though only 2
sub-chunks exist. -/
theorem total_chunks_metadata_formula_witness :
    (split_into_chunks [txt2500] 1000 200).map
      (fun cks => cks.map
        (fun r => getMeta r.metadata "total_chunks_from_original")) =
      Except.ok (List.replicate 2 (some (JValue.num 4))) := by
  have h2500 : txt2500.text.length = 2500 := by
    rw [show txt2500.text = List.replicate 2500 'a' from rfl,
      List.length_replicate]
  have h := total_chunks_metadata_formula txt2500 1000 200 (by omega)
    (by norm_num)
  rw [h2500] at h
  norm_num at h
  exact h

theorem splitOne_passthrough (item : Record) (cs ov : Nat)
    (h : item.text.length ≤ cs) : splitOne item cs ov = Except.ok [item] := by
  unfold splitOne
  rw [if_pos h]

theorem split_into_chunks_append (l1 l2 : List Record) (cs ov : Nat) :
    split_into_chunks (l1 ++ l2) cs ov =
      match split_into_chunks l1 cs ov with
      | Except.error e => Except.error e
      | Except.ok a =>
        match split_into_chunks l2 cs ov with
        | Except.error e => Except.error e
        | Except.ok b => Except.ok (a ++ b) := by
  induction l1 with
  | nil =>
    simp only [List.nil_append, split_into_chunks]
    cases split_into_chunks l2 cs ov <;> simp
  | cons a t ih =>
    simp only [List.cons_append, split_into_chunks]
    cases splitOne a cs ov with
    | error e => rfl
    | ok c =>
      dsimp only
      rw [show List.append t l2 = t ++ l2 from rfl, ih]
      cases split_into_chunks t cs ov with
      | error e => rfl
      | ok b =>
        cases split_into_chunks l2 cs ov with
        | error e => rfl
        | ok d => simp

theorem split_cons_short (item : Record) (post : List Record) (cs ov : Nat)
    (h : item.text.length ≤ cs) :
    split_into_chunks (item :: post) cs ov =
      match split_into_chunks post cs ov with
      | Except.error e => Except.error e
      | Except.ok b => Except.ok (item :: b) := by
  simp only [split_into_chunks, splitOne_passthrough item cs ov h]
  cases split_into_chunks post cs ov <;> simp

/-- C3: a record whose text fits in chunk_size passes through
split_into_chunks unchanged — the very same record (same text, same
metadata dict, no keys added) appears at its position in the output. -/
theorem split_short_record_passthrough (pre post : List Record)
    (item : Record) (cs ov : Nat) (h : item.text.length ≤ cs) :
    split_into_chunks (pre ++ item :: post) cs ov =
      match split_into_chunks pre cs ov with
      | Except.error e => Except.error e
      | Except.ok a =>
        match split_into_chunks post cs ov with
        | Except.error e => Except.error e
        | Except.ok b => Except.ok (a ++ item :: b) := by
  rw [split_into_chunks_append, split_cons_short item post cs ov h]
  cases split_into_chunks pre cs ov with
  | error e => rfl
  | ok a =>
    cases split_into_chunks post cs ov with
    | error e => rfl
    | ok b => rfl

/-- Two-character record used by concrete pass-through witnesses. -/
def txtHi : Record := { text := ['h', 'i'], metadata := [] }

/-- Witness for C3: a 2-character record is returned unchanged by
split_into_chunks with chunk_size 5. -/
theorem split_short_record_passthrough_witness :
    split_into_chunks [txtHi] 5 1 = Except.ok [txtHi] := by
  have h := split_short_record_passthrough [] [] txtHi 5 1 (by decide)
  simpa using h

/-- C4 (amended): overlap ≥ chunk_size is not rejected as a configuration
error by split_into_chunks: for a record longer than chunk_size, overlap =
chunk_size aborts with the generic range() ValueError while overlap >
chunk_size makes the window list empty, silently dropping the record and
returning ok. -/
theorem split_overlap_ge_chunk_behavior (item : Record) (cs ov : Nat)
    (h1 : cs < item.text.length) (h2 : cs ≤ ov) :
    split_into_chunks [item] cs ov =
      if ov = cs then Except.error "range() arg 3 must not be zero"
      else Except.ok [] := by
  rw [split_into_chunks_singleton]
  unfold splitOne
  rw [if_neg (not_le.mpr h1)]
  unfold pyRange3
  by_cases hc : ov = cs
  · rw [if_pos hc]
    subst hc
    rw [if_pos (by omega : (ov : Int) - (ov : Int) = 0)]
  · rw [if_neg hc]
    have hz : ¬((cs : Int) - (ov : Int) = 0) := by omega
    have hlt : ((cs : Int) - (ov : Int)) < 0 := by omega
    rw [if_neg hz, if_pos hlt]
    rfl

/-- Three-character record used by the C4 counterexample and witness. -/
def rAbc : Record := { text := ['a', 'b', 'c'], metadata := [] }

/-- Counterexample to C4 as stated: with chunk_size 2 and overlap 3 (>
chunk_size) a record of length 3 (> chunk_size) is silently dropped and
the call succeeds with an empty result instead of failing with a
configuration error. -/
theorem split_overlap_gt_silent_drop_cex :
    rAbc.text.length = 3 ∧ 2 < 3 ∧
    split_into_chunks [rAbc] 2 3 = Except.ok [] := by
  exact ⟨rfl, by decide, rfl⟩

/-- Witness for the amended C4: with overlap = chunk_size = 2 the call
fails, but with the generic range() ValueError, not a configuration
error. -/
theorem split_overlap_ge_chunk_behavior_witness :
    split_into_chunks [rAbc] 2 2 =
      Except.error "range() arg 3 must not be zero" := by
  have h := split_overlap_ge_chunk_behavior rAbc 2 2 (by decide) (by decide)
  simpa using h

/-! ## Text extractor and re-chunker interplay -/

theorem txt_record_len (source : String) (text : List Char) (r : Record)
    (hr : r ∈ extract_text_from_txt source text) : r.text.length ≤ 1000 := by
  unfold extract_text_from_txt at hr
  by_cases hempty : (text.isEmpty || (pyStrip text).isEmpty) = true
  · rw [if_pos hempty] at hr
    simp at hr
  · rw [if_neg hempty] at hr
    obtain ⟨i, hi, rfl⟩ := List.mem_map.mp hr
    show (pySlice text i (i + 1000)).length ≤ 1000
    unfold pySlice
    calc ((text.drop i).take (i + 1000 - i)).length ≤ i + 1000 - i :=
          List.length_take_le _ _
      _ = 1000 := by omega

theorem txt_record_meta_keys (source : String) (text : List Char) (r : Record)
    (hr : r ∈ extract_text_from_txt source text) :
    r.metadata.map Prod.fst = ["source", "chunk", "total_chunks", "format"] := by
  unfold extract_text_from_txt at hr
  by_cases hempty : (text.isEmpty || (pyStrip text).isEmpty) = true
  · rw [if_pos hempty] at hr
    simp at hr
  · rw [if_neg hempty] at hr
    obtain ⟨i, hi, rfl⟩ := List.mem_map.mp hr
    rfl

theorem txt_record_format (source : String) (text : List Char) (r : Record)
    (hr : r ∈ extract_text_from_txt source text) :
    getMeta r.metadata "format" = some (JValue.str "txt") := by
  unfold extract_text_from_txt at hr
  by_cases hempty : (text.isEmpty || (pyStrip text).isEmpty) = true
  · rw [if_pos hempty] at hr
    simp at hr
  · rw [if_neg hempty] at hr
    obtain ⟨i, hi, rfl⟩ := List.mem_map.mp hr
    rfl

theorem split_all_short (texts : List Record) (cs ov : Nat)
    (h : ∀ r ∈ texts, r.text.length ≤ cs) :
    split_into_chunks texts cs ov = Except.ok texts := by
  induction texts with
  | nil => rfl
  | cons a t ih =>
    rw [split_cons_short a t cs ov (h a (List.mem_cons_self a t))]
    rw [ih (fun r hr => h r (List.mem_cons_of_mem a hr))]

/-- C10: every slab the text extractor emits has length at most 1000 — the
re-chunker's default chunk_size — so under the default configuration the
re-chunker is the identity on text-extractor output: the split branch is
unreachable, no sub-chunk metadata keys (total_chunks_from_original,
original_page) ever appear on txt records, and the txt extractor's chunk /
total_chunks values survive untouched (the metadata keys are exactly
source, chunk, total_chunks, format). -/
theorem txt_records_never_split (source : String) (text : List Char) :
    (∀ r ∈ extract_text_from_txt source text, r.text.length ≤ 1000) ∧
    split_into_chunks (extract_text_from_txt source text) 1000 200 =
      Except.ok (extract_text_from_txt source text) ∧
    (∀ r ∈ extract_text_from_txt source text,
      r.metadata.map Prod.fst =
        ["source", "chunk", "total_chunks", "format"]) := by
  refine ⟨txt_record_len source text, ?_, txt_record_meta_keys source text⟩
  exact split_all_short _ 1000 200 (txt_record_len source text)

/-- Witness for C10 on a concrete 2-character text file: re-chunking its
extractor output is the identity. -/
theorem txt_records_never_split_witness :
    split_into_chunks (extract_text_from_txt "s" ['h', 'i']) 1000 200 =
      Except.ok (extract_text_from_txt "s" ['h', 'i']) :=
  (txt_records_never_split "s" ['h', 'i']).2.1

/-! ## Orchestrator dispatch -/

/-- C8: a present file whose lowercased extension is none of .pdf, .txt,
.json is routed through the text extractor with the unsupported-extension
warning recorded, and (because the text extractor's slabs are never split
by the default re-chunking pass) every resulting record's metadata carries
format = "txt", the marker of the text-extractor fallback path. -/
theorem process_unknown_ext_fallback (f : FileModel)
    (hp : f.present = true)
    (h : pyLower f.ext ∉ ([".pdf", ".txt", ".json"] : List String)) :
    process_document f =
      Except.ok (extract_text_from_txt f.name f.rawText, true) ∧
    (∀ r ∈ extract_text_from_txt f.name f.rawText,
      getMeta r.metadata "format" = some (JValue.str "txt")) := by
  have hpdf : ¬(pyLower f.ext = ".pdf") := fun hc => h (by rw [hc]; simp)
  have htxt : ¬(pyLower f.ext = ".txt") := fun hc => h (by rw [hc]; simp)
  have hjson : ¬(pyLower f.ext = ".json") := fun hc => h (by rw [hc]; simp)
  constructor
  · unfold process_document
    rw [if_neg (by rw [hp]; exact fun hc => Bool.true_eq_false.mp hc)]
    dsimp only
    rw [if_neg hpdf, if_neg htxt, if_neg hjson]
    dsimp only
    rw [split_all_short _ 1000 200 (txt_record_len f.name f.rawText)]
  · exact txt_record_format f.name f.rawText

/-- Concrete input file with the unrecognized extension .XYZ. -/
def fUnknown : FileModel :=
  { name := "x.xyz", ext := ".XYZ", present := true, pdfPages := []
    rawText := ['h', 'i'], parsedJson := none }

/-- Witness for C8: processing a present .XYZ file routes through the text
extractor with the warning flag set, and the single resulting record
carries format = "txt". -/
theorem process_unknown_ext_fallback_witness :
    process_document fUnknown =
      Except.ok (extract_text_from_txt "x.xyz" ['h', 'i'], true) ∧
    getMeta
      (Record.mk ['h', 'i']
        [("source", JValue.str "x.xyz"), ("chunk", JValue.num 1),
         ("total_chunks", JValue.num 1),
         ("format", JValue.str "txt")]).metadata "format" =
      some (JValue.str "txt") := by
  have h := process_unknown_ext_fallback fUnknown rfl (by decide)
  refine ⟨h.1, h.2 _ ?_⟩
  exact List.mem_singleton.mpr rfl

/-! ## Emptiness checks -/

/-- C9 (amended): only two trim checks exist in the pipeline: the PDF
extractor drops whitespace-only pages (so each of its records has
non-whitespace text) and the TXT extractor drops a file whose whole
content is whitespace-only.  No per-record check exists elsewhere: TXT
slabs, JSON items and re-chunker slices are emitted unchecked (see the
counterexample, where a JSON record with empty text is emitted). -/
theorem emptiness_checks_incomplete :
    (∀ (source : String) (pages : List (List Char)) (r : Record),
      r ∈ extract_text_from_pdf source pages →
        (pyStrip r.text).isEmpty = false) ∧
    (∀ (source : String) (text : List Char),
      (pyStrip text).isEmpty = true →
        extract_text_from_txt source text = []) := by
  constructor
  · intro source pages r hr
    unfold extract_text_from_pdf at hr
    obtain ⟨p, hp, hsome⟩ := List.mem_filterMap.mp hr
    by_cases hc : (p.2.isEmpty || (pyStrip p.2).isEmpty) = true
    · rw [if_pos hc] at hsome
      simp at hsome
    · rw [if_neg hc] at hsome
      injection hsome with hrec
      subst hrec
      simp only [Bool.or_eq_true, not_or, Bool.not_eq_true] at hc
      exact hc.2
  · intro source text hstrip
    unfold extract_text_from_txt
    rw [if_pos (by rw [hstrip]; simp)]

/-- Counterexample to C9 as stated: the JSON extractor, fed the parsed
value [ {} ] (one empty object item), emits a record whose text is empty —
and in particular empty after trimming — instead of dropping it. -/
theorem json_empty_text_emitted_cex :
    (extract_text_from_json "f.json" (JValue.arr [JValue.obj []])).map
      Record.text = [[]] ∧
    pyStrip [] = [] := by
  have hflat : flatten_json (JValue.obj []) "" = [] := by
    simp [flatten_json, flattenObjFields]
  refine ⟨?_, rfl⟩
  have hstep : extract_text_from_json "f.json" (JValue.arr [JValue.obj []]) =
      [Record.mk
        (String.intercalate "\n"
          ((flatten_json (JValue.obj []) "").map
            (fun kv => kv.1 ++ ": " ++ pyStr kv.2))).toList
        [("source", JValue.str "f.json"), ("item_index", JValue.num 0),
         ("total_items", JValue.num 1), ("format", JValue.str "json"),
         ("original_item", JValue.obj [])]] := rfl
  rw [hstep, hflat]
  rfl

/-- The single record the PDF extractor produces for a one-page document
whose page text is the single character a. -/
def pdfRec1 : Record :=
  { text := ['a']
    metadata :=
      [("source", JValue.str "s"), ("page", JValue.num 1),
       ("total_pages", JValue.num 1), ("format", JValue.str "pdf")] }

/-- Witness for the amended C9: the PDF record of a non-blank page has
non-whitespace text, and a whitespace-only text file extracts to no
records. -/
theorem emptiness_checks_incomplete_witness :
    (pyStrip pdfRec1.text).isEmpty = false ∧
    extract_text_from_txt "s" [' '] = [] := by
  refine ⟨emptiness_checks_incomplete.1 "s" [['a']] pdfRec1 ?_,
    emptiness_checks_incomplete.2 "s" [' '] (by decide)⟩
  exact List.mem_singleton.mpr rfl

/-! ## Flattener depth behavior -/

theorem updateAll_nil_singleton (x : String × JValue) :
    updateAll [] [x] = [x] := by
  simp [updateAll, updateAssoc]

theorem flatten_nestObj_len (n : Nat) (pfx : String) :
    (flatten_json (nestObj n) pfx).length = 1 := by
  induction n generalizing pfx with
  | zero => simp [nestObj, flatten_json]
  | succ m ih =>
    rw [show nestObj (m + 1) = JValue.obj [("a", nestObj m)] from rfl]
    rw [flatten_json]
    cases m with
    | zero =>
      simp [flattenObjFields, nestObj, isContainer, updateAssoc]
    | succ k =>
      have hcont : isContainer (nestObj (k + 1)) = true := by
        rw [show nestObj (k + 1) = JValue.obj [("a", nestObj k)] from rfl]
        rfl
      rw [flattenObjFields]
      rw [if_pos hcont, flattenObjFields]
      obtain ⟨x, hx⟩ := List.length_eq_one.mp (ih _)
      rw [hx, updateAll_nil_singleton]
      rfl

/-- C5 (amended): flatten_json has no depth guard and no StructureTooDeep
failure: its result type has no error outcome, and on the nested-object
family nestObj it terminates normally — producing exactly the one leaf
entry — at every nesting depth n. -/
theorem flatten_no_depth_guard (n : Nat) :
    (flatten_json (nestObj n) "").length = 1 :=
  flatten_nestObj_len n ""

/-- Counterexample to C5 as stated: at nesting depth 1200 — beyond any
plausible configured limit, and beyond the Python interpreter's default
recursion limit — flatten_json still returns the normal one-entry mapping
rather than failing with a StructureTooDeep error. -/
theorem flatten_deep_no_failure_cex :
    (flatten_json (nestObj 1200) "").length = 1 :=
  flatten_nestObj_len 1200 ""

/-- Witness for the amended C5 at depth 5. -/
theorem flatten_no_depth_guard_witness :
    (flatten_json (nestObj 5) "").length = 1 :=
  flatten_no_depth_guard 5

/-! ## Flattener key-path structure -/

/-- C6: flatten_json joins nested object keys with a dot and array indices
with zero-based brackets, in pre-order insertion order: the two concrete
examples of the spec. -/
theorem flatten_dot_bracket_examples :
    flatten_json (JValue.obj [("a", JValue.obj [("b", JValue.num 1)]),
      ("c", JValue.arr [JValue.num 2, JValue.num 3])]) "" =
      [("a.b", JValue.num 1), ("c[0]", JValue.num 2),
       ("c[1]", JValue.num 3)] ∧
    flatten_json (JValue.arr [JValue.num 1, JValue.num 2, JValue.num 3]) "" =
      [("[0]", JValue.num 1), ("[1]", JValue.num 2),
       ("[2]", JValue.num 3)] := by
  constructor
  · simp only [flatten_json, flattenObjFields, flattenArrItems, updateAssoc,
      updateAll, isContainer]
    rfl
  · simp only [flatten_json, flattenObjFields, flattenArrItems, updateAssoc,
      updateAll, isContainer]
    rfl

mutual

theorem flatten_keys_aux : ∀ (v : JValue) (pfx : String),
    (leafPaths v pfx).Nodup →
    (flatten_json v pfx).map Prod.fst = leafPaths v pfx
  | JValue.obj fields, pfx, h => by
    rw [flatten_json, leafPaths]
    rw [leafPaths] at h
    have hrec := flattenObj_keys_aux [] fields pfx (by simpa using h)
    simpa using hrec
  | JValue.arr items, pfx, h => by
    rw [flatten_json, leafPaths]
    rw [leafPaths] at h
    have hrec := flattenArr_keys_aux [] items pfx 0 (by simpa using h)
    simpa using hrec
  | JValue.null, pfx, h => by simp [flatten_json, leafPaths]
  | JValue.bool b, pfx, h => by simp [flatten_json, leafPaths]
  | JValue.num n, pfx, h => by simp [flatten_json, leafPaths]
  | JValue.str s, pfx, h => by simp [flatten_json, leafPaths]
termination_by v _ _ => sizeOf v

theorem flattenObj_keys_aux :
    ∀ (acc fields : List (String × JValue)) (pfx : String),
    (acc.map Prod.fst ++ leafPathsObj fields pfx).Nodup →
    (flattenObjFields acc fields pfx).map Prod.fst =
      acc.map Prod.fst ++ leafPathsObj fields pfx
  | acc, [], pfx, h => by
    rw [flattenObjFields, leafPathsObj]
    simp
  | acc, (key, value) :: rest, pfx, h => by
    rw [flattenObjFields, leafPathsObj]
    rw [leafPathsObj] at h
    by_cases hcont : isContainer value = true
    · rw [if_pos hcont] at h ⊢
      have hsub : (leafPaths value
          (if pfx = "" then key else pfx ++ "." ++ key)).Nodup := by
        rw [← List.append_assoc] at h
        exact (h.of_append_left).of_append_right
      have hkeys := flatten_keys_aux value
        (if pfx = "" then key else pfx ++ "." ++ key) hsub
      have hdisj : (acc.map Prod.fst ++
          (flatten_json value
            (if pfx = "" then key else pfx ++ "." ++ key)).map
              Prod.fst).Nodup := by
        rw [hkeys]
        rw [← List.append_assoc] at h
        exact h.of_append_left
      have happ := updateAll_eq_append acc
        (flatten_json value (if pfx = "" then key else pfx ++ "." ++ key))
        hdisj
      rw [happ]
      have hrec := flattenObj_keys_aux
        (acc ++ flatten_json value
          (if pfx = "" then key else pfx ++ "." ++ key)) rest pfx
        (by
          rw [List.map_append, hkeys, List.append_assoc]
          exact h)
      rw [hrec, List.map_append, hkeys, List.append_assoc, if_pos hcont]
    · rw [if_neg hcont] at h ⊢
      have hnk : (if pfx = "" then key else pfx ++ "." ++ key) ∉
          acc.map Prod.fst := by
        rw [← List.append_assoc] at h
        intro hmem
        rcases List.nodup_append.mp h with ⟨hl, _, _⟩
        rcases List.nodup_append.mp hl with ⟨_, _, hdisj⟩
        exact hdisj hmem (by simp)
      have happ := updateAssoc_eq_append acc
        (if pfx = "" then key else pfx ++ "." ++ key) value hnk
      rw [happ]
      have hrec := flattenObj_keys_aux
        (acc ++ [((if pfx = "" then key else pfx ++ "." ++ key), value)])
        rest pfx
        (by
          rw [List.map_append, List.append_assoc]
          simpa using h)
      rw [hrec, List.map_append, List.append_assoc, if_neg hcont]
      simp
termination_by _ fields _ _ => sizeOf fields

theorem flattenArr_keys_aux :
    ∀ (acc : List (String × JValue)) (items : List JValue) (pfx : String)
      (i : Nat),
    (acc.map Prod.fst ++ leafPathsArr items pfx i).Nodup →
    (flattenArrItems acc items pfx i).map Prod.fst =
      acc.map Prod.fst ++ leafPathsArr items pfx i
  | acc, [], pfx, i, h => by
    rw [flattenArrItems, leafPathsArr]
    simp
  | acc, item :: rest, pfx, i, h => by
    rw [flattenArrItems, leafPathsArr]
    rw [leafPathsArr] at h
    by_cases hcont : isContainer item = true
    · rw [if_pos hcont] at h ⊢
      have hsub : (leafPaths item (pfx ++ "[" ++ toString i ++ "]")).Nodup := by
        rw [← List.append_assoc] at h
        exact (h.of_append_left).of_append_right
      have hkeys := flatten_keys_aux item (pfx ++ "[" ++ toString i ++ "]") hsub
      have hdisj : (acc.map Prod.fst ++
          (flatten_json item (pfx ++ "[" ++ toString i ++ "]")).map
            Prod.fst).Nodup := by
        rw [hkeys]
        rw [← List.append_assoc] at h
        exact h.of_append_left
      have happ := updateAll_eq_append acc
        (flatten_json item (pfx ++ "[" ++ toString i ++ "]")) hdisj
      rw [happ]
      have hrec := flattenArr_keys_aux
        (acc ++ flatten_json item (pfx ++ "[" ++ toString i ++ "]")) rest pfx
        (i + 1)
        (by
          rw [List.map_append, hkeys, List.append_assoc]
          exact h)
      rw [hrec, List.map_append, hkeys, List.append_assoc, if_pos hcont]
    · rw [if_neg hcont] at h ⊢
      have hnk : (pfx ++ "[" ++ toString i ++ "]") ∉ acc.map Prod.fst := by
        rw [← List.append_assoc] at h
        intro hmem
        rcases List.nodup_append.mp h with ⟨hl, _, _⟩
        rcases List.nodup_append.mp hl with ⟨_, _, hdisj⟩
        exact hdisj hmem (by simp)
      have happ := updateAssoc_eq_append acc
        (pfx ++ "[" ++ toString i ++ "]") item hnk
      rw [happ]
      have hrec := flattenArr_keys_aux
        (acc ++ [((pfx ++ "[" ++ toString i ++ "]"), item)]) rest pfx (i + 1)
        (by
          rw [List.map_append, List.append_assoc]
          simpa using h)
      rw [hrec, List.map_append, List.append_assoc, if_neg hcont]
      simp
termination_by _ items _ _ _ => sizeOf items

end

/-- C7 (amended): each scalar leaf contributes exactly one generated
key-path (collected in pre-order by leafPaths), and whenever those
generated paths are pairwise distinct the flattened mapping has exactly
those keys — one entry per leaf.  The paths are not distinct for every
input: an object key that itself contains a dot can generate the same path
as a nested leaf, and then the later leaf silently overwrites the earlier
one (see the counterexample), so the one-entry-per-leaf claim needs the
no-collision hypothesis. -/
theorem flatten_one_entry_per_leaf_of_nodup (v : JValue) (pfx : String)
    (h : (leafPaths v pfx).Nodup) :
    (flatten_json v pfx).map Prod.fst = leafPaths v pfx ∧
    (flatten_json v pfx).length = (leafPaths v pfx).length := by
  have hk := flatten_keys_aux v pfx h
  exact ⟨hk, by rw [← hk, List.length_map]⟩

/-- Counterexample to C7 as stated: the object with keys a.b and a (whose
nested object has key b) has two scalar leaves that both generate the
key-path a.b; flattening silently collapses them to a single entry holding
the later value 2. -/
theorem flatten_leaf_collision_cex :
    flatten_json (JValue.obj [("a.b", JValue.num 1),
      ("a", JValue.obj [("b", JValue.num 2)])]) "" =
      [("a.b", JValue.num 2)] ∧
    leafPaths (JValue.obj [("a.b", JValue.num 1),
      ("a", JValue.obj [("b", JValue.num 2)])]) "" = ["a.b", "a.b"] := by
  constructor
  · simp only [flatten_json, flattenObjFields, flattenArrItems, updateAssoc,
      updateAll, isContainer]
    rfl
  · simp only [leafPaths, leafPathsObj, leafPathsArr, isContainer]
    rfl

/-- Witness for the amended C7 on a small collision-free object. -/
theorem flatten_one_entry_per_leaf_of_nodup_witness :
    (flatten_json (JValue.obj [("x", JValue.num 1),
      ("y", JValue.arr [JValue.num 2])]) "").map Prod.fst =
      leafPaths (JValue.obj [("x", JValue.num 1),
        ("y", JValue.arr [JValue.num 2])]) "" ∧
    (flatten_json (JValue.obj [("x", JValue.num 1),
      ("y", JValue.arr [JValue.num 2])]) "").length =
      (leafPaths (JValue.obj [("x", JValue.num 1),
        ("y", JValue.arr [JValue.num 2])]) "").length := by
  apply flatten_one_entry_per_leaf_of_nodup
  simp only [leafPaths, leafPathsObj, leafPathsArr, isContainer]
  decide
